import Mathlib

set_option maxRecDepth 100000

/-!
Verification of `bib_audit_batch.py` (Maynooth Harvard bibliography audit tool).

This file gives a shallow embedding of the program's core pipeline —
`split_entries`, `parse_entry`, `suggest_entry` (the rule engine),
`rebuild_entry` (the serializer) and `audit_all` (the batch driver) —
as executable Lean functions over `List Char`, and proves or refutes the
specification's claims about them.

Modelling conventions:
* Python strings are `List Char`; machine text in the repository is ASCII, so
  `str.upper`/`str.lower`/`\w`/`\s` are modelled on the ASCII fragment of
  Python's Unicode semantics (the two coincide on every reachable input here).
* The regular expressions of the source (`ENTRY_HEAD_RE`, `FIELD_RE`, the
  author splitting and classification patterns, the edition pattern) are
  deterministic after backtracking analysis; each is embedded as a direct
  scanning function with the same match extents and groups.  The embeddings
  were cross-validated against CPython's `re` on tens of thousands of inputs.
* Loops whose index does not decrease structurally take a fuel argument; the
  fuel passed by the wrapper (`length + 1`) exceeds the iteration count, since
  every iteration of each such loop consumes at least one character.
* Python expressions that can raise (`parts[-1]`, `F[k]`) are modelled in
  `Except`; everything the source guards is proved unreachable (claim C5).
-/

namespace BibAudit

/-- Convert a string literal to the `List Char` the model computes on. -/
def lc (s : String) : List Char := s.toList

/-- Python `\s` / `str.isspace` / default `str.strip` class (ASCII range). -/
def pySpace (c : Char) : Bool :=
  c == ' ' || c == '\t' || c == '\n' || c == '\r' || c == '\x0b' || c == '\x0c'

/-- Python `\w` (ASCII fragment): letters, digits, underscore. -/
def isWordChar (c : Char) : Bool := c.isAlpha || c.isDigit || c == '_'

/-- Python `str.lower` (ASCII). -/
def lowerStr (s : List Char) : List Char := s.map Char.toLower

/-- Python `str.upper` (ASCII). -/
def upperStr (s : List Char) : List Char := s.map Char.toUpper

/-- Python `str.lstrip()`. -/
def pyLstrip (s : List Char) : List Char := s.dropWhile pySpace

/-- Python `str.strip()`. -/
def pyStrip (s : List Char) : List Char :=
  ((s.dropWhile pySpace).reverse.dropWhile pySpace).reverse

/-- Python slice `s[a:b]` (for `a ≤ b`; clamps at the ends like Python). -/
def slice (s : List Char) (a b : Nat) : List Char := (s.drop a).take (b - a)

/-- Relative index of the first occurrence of `c` (Python `str.find(c)`). -/
def findChAux (c : Char) : List Char → Option Nat
  | [] => none
  | d :: t => if d = c then some 0 else (findChAux c t).map (· + 1)

/-- Python `s.find(c, i)`: absolute index of the first `c` at or after `i`. -/
def findFrom (s : List Char) (c : Char) (i : Nat) : Option Nat :=
  (findChAux c (s.drop i)).map (· + i)

/-- Python `s.rfind('\n', 0, hi)` for `hi ≤ len(s)`: greatest newline index
below `hi`, `none` standing for Python's `-1`. -/
def rfindNl (s : List Char) (hi : Nat) : Option Nat :=
  (findChAux '\n' ((s.take hi).reverse)).map (fun r => hi - 1 - r)

/-- `sep.join(pieces)`. -/
def joinSep (sep : List Char) : List (List Char) → List Char
  | [] => []
  | [x] => x
  | x :: xs => x ++ sep ++ joinSep sep xs

/-! ### The field mapping (Python `dict`) -/

/-- A record's field mapping: association list in insertion order, no
duplicate keys arise (mirrors a Python `dict` built by single assignments). -/
abbrev Dict := List (List Char × List Char)

/-- Python `k in F`. -/
def dictContains : Dict → List Char → Bool
  | [], _ => false
  | kv :: F, k => if kv.1 = k then true else dictContains F k

/-- Python `F.get(k)` / guarded `F[k]` lookup. -/
def dictGet : Dict → List Char → Option (List Char)
  | [], _ => none
  | kv :: F, k => if kv.1 = k then some kv.2 else dictGet F k

/-- Python `F[k] = v`: replace in place at the first occurrence, else append
(a `dict` keeps first-insertion order and overwrites the value). -/
def dictSet : Dict → List Char → List Char → Dict
  | [], k, v => [(k, v)]
  | kv :: F, k, v => if kv.1 = k then (k, v) :: F else kv :: dictSet F k v

/-- Python `F.pop(k, None)` (keys are unique, so removing every occurrence
coincides with removing the one entry). -/
def dictPop : Dict → List Char → Dict
  | [], _ => []
  | kv :: F, k => if kv.1 = k then dictPop F k else kv :: dictPop F k

/-- Python `F[k]`, which raises `KeyError` when the key is absent. -/
def pyGetItem (F : Dict) (k : List Char) : Except (List Char) (List Char) :=
  match dictGet F k with
  | some v => .ok v
  | none => .error (lc "KeyError")

/-! ### `ENTRY_HEAD_RE` and `FIELD_RE` -/

/-- Match of `ENTRY_HEAD_RE = @(?P<type>\w+)\s*\{\s*(?P<key>[^,]+)\s*,` at the
start of `s`, returning the `type` and raw `key` groups.  The pattern is
deterministic: `\w+`, the two `\s*` and `[^,]+` take maximal runs, except that
when the first comma sits right after the whitespace run the engine backtracks
one space into the key group (so the stripped key comes out empty). -/
def headMatchAt (s : List Char) : Option (List Char × List Char) :=
  match s with
  | '@' :: t =>
    let w := t.takeWhile isWordChar
    if w.isEmpty then none
    else
      match (t.drop w.length).dropWhile pySpace with
      | '\x7b' :: t2 =>
        let m := (t2.takeWhile pySpace).length
        match findChAux ',' t2 with
        | none => none
        | some k =>
          if m < k then some (w, slice t2 m k)
          else if 1 ≤ k then some (w, slice t2 (k - 1) k)
          else none
      | _ => none
  | _ => none

/-- `ENTRY_HEAD_RE.search`: leftmost match over all start positions. -/
def headSearch : List Char → Option (List Char × List Char)
  | [] => none
  | c :: t =>
    match headMatchAt (c :: t) with
    | some r => some r
    | none => headSearch t

/-- Match of `FIELD_RE = ([A-Za-z]+)\s*=\s*\{(.*?)\}\s*,?` (DOTALL) at the
start of `s`: name run, `=`, `{`, the non-greedy value up to the first `}`,
then trailing whitespace and an optional comma.  Returns the name and value
groups and the rest of the text after the match. -/
def fieldMatchAt (s : List Char) : Option (List Char × List Char × List Char) :=
  let name := s.takeWhile Char.isAlpha
  if name.isEmpty then none
  else
    match (s.drop name.length).dropWhile pySpace with
    | '=' :: t2 =>
      match t2.dropWhile pySpace with
      | '\x7b' :: t4 =>
        match findChAux '\x7d' t4 with
        | none => none
        | some j =>
          let v := t4.take j
          let rest1 := (t4.drop (j + 1)).dropWhile pySpace
          let rest2 := match rest1 with
            | ',' :: r => r
            | _ => rest1
          some (name, v, rest2)
      | _ => none
    | _ => none

/-- `FIELD_RE.finditer`: non-overlapping leftmost matches.  Every recursive
call drops at least one character, so fuel `length + 1` is never exhausted. -/
def fieldsLoop : Nat → List Char → List (List Char × List Char)
  | 0, _ => []
  | _ + 1, [] => []
  | fuel + 1, c :: t =>
    match fieldMatchAt (c :: t) with
    | some (name, v, rest) => (lowerStr name, pyStrip v) :: fieldsLoop fuel rest
    | none => fieldsLoop fuel t

/-- The dict comprehension of `parse_entry`: lowercased names, stripped
values, first-seen position, last write wins. -/
def parseFields (text : List Char) : Dict :=
  (fieldsLoop (text.length + 1) text).foldl (fun F nv => dictSet F nv.1 nv.2) []

/-- The `ValueError` message `parse_entry` raises. -/
def parseErrMsg : List Char := lc "Could not find @type\x7bkey, ...\x7d in entry."

/-- `parse_entry(text)`: header search for type and key, plus the field
comprehension over the whole text. -/
def parseEntry (text : List Char) :
    Except (List Char) (List Char × List Char × Dict) :=
  match headSearch text with
  | none => .error parseErrMsg
  | some (w, rawKey) => .ok (lowerStr w, pyStrip rawKey, parseFields text)

/-! ### `rebuild_entry` (serializer) -/

/-- The `order_hint` list of `rebuild_entry`. -/
def orderHint : List (List Char) :=
  [lc "author", lc "title", lc "year", lc "date", lc "type", lc "institution",
   lc "organization", lc "journaltitle", lc "volume", lc "number", lc "pages",
   lc "edition", lc "location", lc "publisher", lc "note", lc "url",
   lc "urldate", lc "addendum", lc "issn", lc "isbn", lc "series", lc "doi"]

/-- Python `str.capitalize()` (ASCII): first character uppercased, the rest
lowercased; also `t[:1].upper() + t[1:].lower()` in `sentence_case`. -/
def pyCapitalize : List Char → List Char
  | [] => []
  | c :: t => Char.toUpper c :: lowerStr t

/-- The f-string padding `{k:<12}`. -/
def padTo12 (k : List Char) : List Char := k ++ List.replicate (12 - k.length) ' '

/-- One field line `  {k:<12}= {v},`. -/
def fieldLine (k v : List Char) : List Char :=
  lc "  " ++ padTo12 k ++ lc "= \x7b" ++ v ++ lc "\x7d,"

/-- The first loop of `rebuild_entry`: over `order_hint`, emit fields that are
present with a non-blank value; returns the emitted pairs and the `used` set
(as the list of emitted keys). -/
def rebuildPass1 : List (List Char) → Dict → List (List Char × List Char) × List (List Char)
  | [], _ => ([], [])
  | k :: ks, F =>
    let rest := rebuildPass1 ks F
    match dictGet F k with
    | some v => if pyStrip v = [] then rest else ((k, v) :: rest.1, k :: rest.2)
    | none => rest

/-- The emission order of `rebuild_entry`: the preferred pass, then the second
loop over `F.items()` for every key not in `used` (no blank check there). -/
def rebuildFields (F : Dict) : List (List Char × List Char) :=
  let p := rebuildPass1 orderHint F
  p.1 ++ F.filter (fun kv => !(p.2.contains kv.1))

/-- `lines[-1] = lines[-1][:-1]` when it ends with a comma. -/
def dropEndComma (l : List Char) : List Char :=
  if l.getLast? = some ',' then l.dropLast else l

/-- Apply `dropEndComma` to the last line. -/
def stripTrailingComma : List (List Char) → List (List Char)
  | [] => []
  | [l] => [dropEndComma l]
  | l :: ls => l :: stripTrailingComma ls

/-- The `lines` list of `rebuild_entry`, closing brace included. -/
def rebuildLines (etype key : List Char) (F : Dict) : List (List Char) :=
  let ls := (lc "@" ++ pyCapitalize etype ++ lc "\x7b" ++ key ++ lc ",") ::
    (rebuildFields F).map (fun kv => fieldLine kv.1 kv.2)
  (if 1 < ls.length then stripTrailingComma ls else ls) ++ [lc "\x7d"]

/-- `rebuild_entry(etype, key, F)`. -/
def rebuildEntry (etype key : List Char) (F : Dict) : List Char :=
  joinSep (lc "\n") (rebuildLines etype key F)

/-! ### `sentence_case` -/

/-- `re.split(r'(\s+)', s)`: alternating text and whitespace tokens, keeping
the separators; outer text pieces may be empty.  Fuel as usual. -/
def wsTokensLoop : Nat → List Char → List (List Char)
  | 0, _ => []
  | fuel + 1, s =>
    let p := s.takeWhile (fun c => !pySpace c)
    match s.drop p.length with
    | [] => [p]
    | r =>
      let sep := r.takeWhile pySpace
      p :: sep :: wsTokensLoop fuel (r.drop sep.length)

def wsTokens (s : List Char) : List (List Char) := wsTokensLoop (s.length + 1) s

/-- Python `t.isspace()`: nonempty and all whitespace. -/
def pyIsSpaceStr (t : List Char) : Bool := !t.isEmpty && t.all pySpace

/-- Python `t.isupper()` (ASCII): at least one cased character and no
lowercase one. -/
def pyIsUpper (t : List Char) : Bool := t.any Char.isUpper && !t.any Char.isLower

/-- The token loop of `sentence_case` (`fad` is `first_alpha_done`). -/
def scLoop : List (List Char) → Bool → List (List Char) → List (List Char)
  | [], _, out => out
  | t :: ts, fad, out =>
    if pyIsSpaceStr t then scLoop ts fad (out ++ [t])
    else if !fad then
      scLoop ts true
        (out ++ [if pyIsUpper t && decide (t.length ≤ 5) then t else pyCapitalize t])
    else if pyIsUpper t && decide (t.length ≤ 5) then scLoop ts true (out ++ [t])
    else if (out.getLast?.getD []).getLast? = some ':' then
      scLoop ts true (out ++ [pyCapitalize t])
    else scLoop ts true (out ++ [lowerStr t])

/-- `sentence_case(title)`. -/
def sentenceCase (title : List Char) : List Char :=
  if pyStrip title = [] then title
  else (scLoop (wsTokens title) false []).flatten

/-! ### Author splitting and initials -/

/-- Match of the separator `\s+\band\b\s+` (IGNORECASE) at the start of `s`,
returning its length.  The `\b` are vacuous because the mandatory whitespace
on both sides already forces the word boundaries. -/
def andSepAt (s : List Char) : Option Nat :=
  let r := (s.takeWhile pySpace).length
  if r = 0 then none
  else
    match s.drop r with
    | a :: n :: d :: rest =>
      if (Char.toLower a == 'a') && (Char.toLower n == 'n') && (Char.toLower d == 'd') then
        let r2 := (rest.takeWhile pySpace).length
        if r2 = 0 then none else some (r + 3 + r2)
      else none
    | _ => none

/-- `re.split(r'\s+\band\b\s+', author, flags=IGNORECASE)`: scan for leftmost
separator matches; `acc` holds the current piece reversed. -/
def splitAndAux : Nat → List Char → List Char → List (List Char)
  | 0, acc, _ => [acc.reverse]
  | _ + 1, acc, [] => [acc.reverse]
  | fuel + 1, acc, c :: t =>
    match andSepAt (c :: t) with
    | some k => acc.reverse :: splitAndAux fuel [] ((c :: t).drop k)
    | none => splitAndAux fuel (c :: acc) t

def pySplitAnd (s : List Char) : List (List Char) := splitAndAux (s.length + 1) [] s

/-- `a.startswith('{') and a.endswith('}')` (corporate author). -/
def isCorporateAuthor (a : List Char) : Bool :=
  match a with
  | '\x7b' :: _ => a.getLast? == some '\x7d'
  | _ => false

/-- Match of `,\s*[^\W\d_]{2,}` at the start of `s` (comma, maximal space run,
then two letters; shorter space runs cannot help since spaces are not
letters). -/
def commaTwoLettersAt : List Char → Bool
  | ',' :: t =>
    match t.dropWhile pySpace with
    | a :: b :: _ => a.isAlpha && b.isAlpha
    | _ => false
  | _ => false

/-- `re.search(r',\s*[^\W\d_]{2,}', a)` over an ASCII author piece. -/
def hasCommaTwoLetters : List Char → Bool
  | [] => false
  | c :: t => commaTwoLettersAt (c :: t) || hasCommaTwoLetters t

/-- The `\s*[A-Z]\.(?:\s*[A-Z]\.)*$` suffix after a comma: repeat
space-run/uppercase/period groups and end exactly at the end of the string
(the inputs are stripped author pieces, so `$` cannot fire before a trailing
newline).  Each iteration consumes at least two characters. -/
def initialsSeq : Nat → List Char → Bool
  | 0, _ => false
  | fuel + 1, s =>
    match s.dropWhile pySpace with
    | a :: '.' :: r => a.isUpper && (r.isEmpty || initialsSeq fuel r)
    | _ => false

def acceptedInitialsAt : List Char → Bool
  | ',' :: t => initialsSeq (t.length + 1) t
  | _ => false

/-- `re.search(r',\s*[A-Z]\.(?:\s*[A-Z]\.)*$', a)`. -/
def hasAcceptedInitials : List Char → Bool
  | [] => false
  | c :: t => acceptedInitialsAt (c :: t) || hasAcceptedInitials t

/-- `author_uses_full_given_names(author_field)`. -/
def authorUsesFullGivenNames (author : List Char) : Bool :=
  (pySplitAnd author).any (fun a0 =>
    let a := pyStrip a0
    if a.isEmpty then false
    else if isCorporateAuthor a then false
    else hasCommaTwoLetters a && !hasAcceptedInitials a)

/-- `re.split(r'(\s+|-)', s)` of `_givens_to_initials`: split keeping the
separators, which are maximal space runs or single hyphens. -/
def givenTokensLoop : Nat → List Char → List (List Char)
  | 0, _ => []
  | fuel + 1, s =>
    let p := s.takeWhile (fun c => !(pySpace c || c == '-'))
    match s.drop p.length with
    | [] => [p]
    | '-' :: t => p :: ['-'] :: givenTokensLoop fuel t
    | r =>
      let sep := r.takeWhile pySpace
      p :: sep :: givenTokensLoop fuel (r.drop sep.length)

/-- `re.match(r'\s+|-', p)`: `p` starts with a space or a hyphen. -/
def isSepTok : List Char → Bool
  | [] => false
  | c :: _ => pySpace c || c == '-'

/-- `''.join(out).replace('..', '.')`: leftmost non-overlapping replacement. -/
def replaceDots : List Char → List Char
  | '.' :: '.' :: t => '.' :: replaceDots t
  | c :: t => c :: replaceDots t
  | [] => []

/-- `_givens_to_initials(givens)`: separators and empty pieces pass through;
a text piece contributes its first letter uppercased plus a period, or
nothing when it holds no letter. -/
def givensToInitials (givens : List Char) : List Char :=
  let g := pyStrip givens
  replaceDots (((givenTokensLoop (g.length + 1) g).map (fun p =>
    if p.isEmpty || isSepTok p then p
    else
      match p.find? Char.isAlpha with
      | some c => [Char.toUpper c, '.']
      | none => [])).flatten)

/-- `a.split()`: split on whitespace runs, dropping empty pieces. -/
def pySplitWsLoop : Nat → List Char → List (List Char)
  | 0, _ => []
  | fuel + 1, s =>
    match s.dropWhile pySpace with
    | [] => []
    | s1 =>
      let w := s1.takeWhile (fun c => !pySpace c)
      w :: pySplitWsLoop fuel (s1.drop w.length)

def pySplitWs (s : List Char) : List (List Char) := pySplitWsLoop (s.length + 1) s

/-- Python `parts[-1]`, which raises `IndexError` on an empty list. -/
def pyLast : List (List Char) → Except (List Char) (List Char)
  | [] => .error (lc "list index out of range")
  | [x] => .ok x
  | _ :: t => pyLast t

/-- The body of `enforce_initials` for one split piece: skip empty pieces,
keep corporate authors, and otherwise rewrite `Surname, Givens` (splitting at
the first comma, as `a.split(',', 1)` does) or `Givens Surname`. -/
def enforceOne (a0 : List Char) : Except (List Char) (List (List Char)) :=
  let a := pyStrip a0
  if a = [] then .ok []
  else if isCorporateAuthor a then .ok [a]
  else if a.contains ',' then
    let k := (findChAux ',' a).getD 0
    .ok [pyStrip (a.take k) ++ lc ", " ++ givensToInitials (a.drop (k + 1))]
  else
    match pyLast (pySplitWs a) with
    | .error e => .error e
    | .ok surname =>
      .ok [surname ++ lc ", " ++ givensToInitials (joinSep (lc " ") (pySplitWs a).dropLast)]

def enforceList : List (List Char) → Except (List Char) (List (List Char))
  | [] => .ok []
  | a0 :: rest =>
    match enforceOne a0 with
    | .error e => .error e
    | .ok pieces =>
      match enforceList rest with
      | .error e => .error e
      | .ok ps => .ok (pieces ++ ps)

/-- `enforce_initials(author_field)`. -/
def enforceInitials (author : List Char) : Except (List Char) (List Char) :=
  match enforceList (pySplitAnd author) with
  | .error e => .error e
  | .ok fixed => .ok (joinSep (lc " and ") fixed)

/-! ### Dates -/

/-- A `datetime.date` value (the rule engine formats, never computes with it). -/
structure PyDate where
  year : Nat
  month : Nat
  day : Nat

def natDec (n : Nat) : List Char := Nat.toDigits 10 n

def padZeros (w n : Nat) : List Char :=
  List.replicate (w - (natDec n).length) '0' ++ natDec n

/-- `date.isoformat()`: `YYYY-MM-DD`, zero padded. -/
def isoToday (d : PyDate) : List Char :=
  padZeros 4 d.year ++ lc "-" ++ padZeros 2 d.month ++ lc "-" ++ padZeros 2 d.day

def MONTHS : List (List Char) :=
  [lc "January", lc "February", lc "March", lc "April", lc "May", lc "June",
   lc "July", lc "August", lc "September", lc "October", lc "November", lc "December"]

/-- `accessed_today()`: `(Accessed: D Month YYYY)` (month index is valid for
every real `datetime.date`). -/
def accessedToday (d : PyDate) : List Char :=
  lc "(Accessed: " ++ natDec d.day ++ lc " " ++ ((MONTHS.get? (d.month - 1)).getD []) ++
    lc " " ++ natDec d.year ++ lc ")"

/-! ### The rule engine `suggest_entry` -/

def REQUIRE_ONLINE_ACCESS_BLOCK : Bool := true
def STRICT_SENTENCE_CASE_HINT : Bool := true
def REQUIRE_INITIALS : Bool := true

/-- Rule 1: remove `abstract` fields.  The loop runs over a snapshot of the
original keys while popping from the mapping. -/
def ruleAbstract (F : Dict) (issues : List (List Char)) : Dict × List (List Char) :=
  F.foldl (fun st kv =>
    if lowerStr kv.1 = lc "abstract" then
      (dictPop st.1 kv.1, st.2 ++ [lc "Removed noisy field \x27" ++ kv.1 ++ lc "\x27."])
    else st) (F, issues)

def initialsIssue : List Char :=
  lc "Author uses full given names; use initials (Surname, X. or Surname, X. Y.) per Maynooth Harvard."

/-- Rule 2: author initials enforcement. -/
def ruleAuthor (F : Dict) (issues : List (List Char)) :
    Except (List Char) (Dict × List (List Char)) :=
  if REQUIRE_INITIALS = true ∧ dictContains F (lc "author") = true then
    match pyGetItem F (lc "author") with
    | .error e => .error e
    | .ok a =>
      if authorUsesFullGivenNames a then
        match enforceInitials a with
        | .error e => .error e
        | .ok a2 => .ok (dictSet F (lc "author") a2, issues ++ [initialsIssue])
      else .ok (F, issues)
  else .ok (F, issues)

/-- Rule 3: sentence-case titles for `article`/`online`. -/
def ruleSentence (etype : List Char) (F : Dict) (issues : List (List Char)) :
    Dict × List (List Char) :=
  if STRICT_SENTENCE_CASE_HINT = true ∧ (etype = lc "article" ∨ etype = lc "online") then
    let t0 := (dictGet F (lc "title")).getD []
    let sc := sentenceCase t0
    if sc ≠ [] ∧ sc ≠ t0 then
      (dictSet F (lc "title") sc,
       issues ++ [lc "Title looked like Title Case; converted to sentence case in suggestion."])
    else (F, issues)
  else (F, issues)

def noteIssue : List Char := lc "Missing note = \x7b[Online]\x7d for online source."

/-- Python `needle in s` at the start of `s`. -/
def listStartsWith : List Char → List Char → Bool
  | [], _ => true
  | _ :: _, [] => false
  | a :: as, b :: bs => a == b && listStartsWith as bs

/-- Python substring test `needle in s`. -/
def containsSub (needle : List Char) : List Char → Bool
  | [] => needle.isEmpty
  | c :: t => listStartsWith needle (c :: t) || containsSub needle t

def onlineNote (F : Dict) (issues : List (List Char)) :
    Except (List Char) (Dict × List (List Char)) :=
  if dictContains F (lc "note") = true then
    match pyGetItem F (lc "note") with
    | .error e => .error e
    | .ok v =>
      if lowerStr (pyStrip v) = lc "[online]" then .ok (F, issues)
      else .ok (dictSet F (lc "note") (lc "[Online]"), issues ++ [noteIssue])
  else .ok (dictSet F (lc "note") (lc "[Online]"), issues ++ [noteIssue])

def onlineUrldate (today : PyDate) (F : Dict) (issues : List (List Char)) :
    Dict × List (List Char) :=
  if dictContains F (lc "urldate") = true then (F, issues)
  else (dictSet F (lc "urldate") (isoToday today),
        issues ++ [lc "Missing urldate (ISO YYYY-MM-DD)."])

def onlineAddendum (today : PyDate) (F : Dict) (issues : List (List Char)) :
    Dict × List (List Char) :=
  if !dictContains F (lc "addendum") ||
      !containsSub (lc "Accessed") ((dictGet F (lc "addendum")).getD []) then
    (dictSet F (lc "addendum") (accessedToday today),
     issues ++ [lc "Missing addendum with Accessed: Day Month Year."])
  else (F, issues)

def onlineUrl (F : Dict) (issues : List (List Char)) :
    Except (List Char) (Dict × List (List Char)) :=
  if dictContains F (lc "url") = true then
    match pyGetItem F (lc "url") with
    | .error e => .error e
    | .ok v =>
      if pyStrip v = [] then .ok (F, issues ++ [lc "Missing url for online source."])
      else .ok (F, issues)
  else .ok (F, issues ++ [lc "Missing url for online source."])

/-- Rule 4: online-source completeness. -/
def ruleOnline (etype : List Char) (today : PyDate) (F : Dict)
    (issues : List (List Char)) : Except (List Char) (Dict × List (List Char)) :=
  if etype = lc "online" ∨ etype = lc "electronic" then
    match onlineNote F issues with
    | .error e => .error e
    | .ok st1 =>
      let st2 := onlineUrldate today st1.1 st1.2
      let st3 := onlineAddendum today st2.1 st2.2
      onlineUrl st3.1 st3.2
  else .ok (F, issues)

/-- Rule 5: article completeness. -/
def ruleArticle (etype : List Char) (F : Dict) (issues : List (List Char)) :
    Dict × List (List Char) :=
  if etype = lc "article" then
    let st1 :=
      if dictContains F (lc "journaltitle") = true then (F, issues)
      else (dictSet F (lc "journaltitle") (lc "<ADD JOURNAL TITLE>"),
            issues ++ [lc "Missing journaltitle for article."])
    let st2 :=
      if dictContains st1.1 (lc "pages") = true then st1
      else (dictSet st1.1 (lc "pages") (lc "<ADD PAGES>"),
            st1.2 ++ [lc "Missing pages for article."])
    if !dictContains st2.1 (lc "volume") && !dictContains st2.1 (lc "number") then
      (dictSet st2.1 (lc "volume") (lc "<ADD VOLUME>"),
       st2.2 ++ [lc "Missing volume/number for article."])
    else st2
  else (F, issues)

/-- One `req` step of the book/thesis loops. -/
def ruleReq (noun req : List Char) (st : Dict × List (List Char)) :
    Dict × List (List Char) :=
  if dictContains st.1 req = true then st
  else (dictSet st.1 req (lc "<ADD " ++ upperStr req ++ lc ">"),
        st.2 ++ [lc "Missing " ++ req ++ lc " for " ++ noun ++ lc "."])

/-- Rule 6: book completeness. -/
def ruleBook (etype : List Char) (F : Dict) (issues : List (List Char)) :
    Dict × List (List Char) :=
  if etype = lc "book" then ruleReq (lc "book") (lc "location") (ruleReq (lc "book") (lc "publisher") (F, issues))
  else (F, issues)

/-- Rule 7: thesis completeness. -/
def ruleThesis (etype : List Char) (F : Dict) (issues : List (List Char)) :
    Dict × List (List Char) :=
  if etype = lc "thesis" then ruleReq (lc "thesis") (lc "institution") (ruleReq (lc "thesis") (lc "type") (F, issues))
  else (F, issues)

/-- Rule 8a: `date` vs `year` (flag only). -/
def ruleYearDate (F : Dict) (issues : List (List Char)) : Dict × List (List Char) :=
  if dictContains F (lc "date") = true ∧ dictContains F (lc "year") = true then
    (F, issues ++ [lc "Both \x27date\x27 and \x27year\x27 present — pick one (usually \x27year\x27)."])
  else (F, issues)

/-- Rule 8b: `institution` vs `organization` (flag only). -/
def ruleInstOrg (F : Dict) (issues : List (List Char)) : Dict × List (List Char) :=
  if dictContains F (lc "institution") = true ∧ dictContains F (lc "organization") = true then
    (F, issues ++ [lc "Both \x27institution\x27 and \x27organization\x27 present — keep one consistently."])
  else (F, issues)

/-- `re.fullmatch(r'\d+|[0-9]+(st|nd|rd|th)', e, IGNORECASE)`: the ordinal
letters are not digits, so the whole string is a maximal digit run followed by
nothing or by exactly one case-insensitive ordinal suffix. -/
def editionOk (e : List Char) : Bool :=
  let ds := e.takeWhile Char.isDigit
  let suf := lowerStr (e.drop ds.length)
  !ds.isEmpty && (suf.isEmpty || suf == lc "st" || suf == lc "nd" || suf == lc "rd" || suf == lc "th")

/-- Rule 9: edition sanity (flag only). -/
def ruleEdition (F : Dict) (issues : List (List Char)) :
    Except (List Char) (Dict × List (List Char)) :=
  if dictContains F (lc "edition") = true then
    match pyGetItem F (lc "edition") with
    | .error e => .error e
    | .ok v =>
      if editionOk v then .ok (F, issues)
      else .ok (F, issues ++ [lc "Edition should be numeric (e.g., 3) or ordinal (e.g., 3rd)."])
  else .ok (F, issues)

/-- `suggest_entry(etype, key, F)`: the nine rules in source order, then the
serialized record and the issue list. -/
def suggestEntry (etype key : List Char) (F0 : Dict) (today : PyDate) :
    Except (List Char) (List Char × List (List Char)) :=
  let st1 := ruleAbstract F0 []
  match ruleAuthor st1.1 st1.2 with
  | .error e => .error e
  | .ok st2 =>
    let st3 := ruleSentence etype st2.1 st2.2
    match ruleOnline etype today st3.1 st3.2 with
    | .error e => .error e
    | .ok st4 =>
      let st5 := ruleArticle etype st4.1 st4.2
      let st6 := ruleBook etype st5.1 st5.2
      let st7 := ruleThesis etype st6.1 st6.2
      let st8 := ruleYearDate st7.1 st7.2
      let st9 := ruleInstOrg st8.1 st8.2
      match ruleEdition st9.1 st9.2 with
      | .error e => .error e
      | .ok st10 => .ok (rebuildEntry etype key st10.1, st10.2)

/-! ### `split_entries` -/

/-- The depth scan of `split_entries` starting just after the opening brace
with depth 1: the number of characters consumed up to and including the brace
that returns the depth to 0, or `none` when the braces never rebalance. -/
def scanClose : List Char → Nat → Option Nat
  | [], _ => none
  | c :: t, depth =>
    let d2 := if c == '\x7b' then depth + 1 else if c == '\x7d' then depth - 1 else depth
    if d2 = 0 then some 1 else (scanClose t d2).map (· + 1)

/-- The comment test of `split_entries`: `at > 0`, a newline precedes `at`,
and the line prefix up to `at`, left-stripped, starts with `%`. -/
def commentSkip (s : List Char) (a : Nat) : Bool :=
  decide (0 < a) &&
    match rfindNl s a with
    | none => false
    | some p => (pyLstrip (slice s (p + 1) a)).head? == some '%'

/-- The `while` loop of `split_entries`, also recording each chunk's start
index.  The scan index strictly increases every iteration, so fuel
`length + 1` is never exhausted. -/
def splitLoop : Nat → List Char → Nat → List (Nat × List Char)
  | 0, _, _ => []
  | fuel + 1, s, i =>
    match findFrom s '@' i with
    | none => []
    | some a =>
      if commentSkip s a then splitLoop fuel s (a + 1)
      else
        match findFrom s '\x7b' a with
        | none => []
        | some brace =>
          match scanClose (s.drop (brace + 1)) 1 with
          | some consumed =>
            (a, slice s a (brace + 1 + consumed)) :: splitLoop fuel s (brace + 1 + consumed)
          | none => [(a, s.drop a)]

def splitEntriesWithStarts (s : List Char) : List (Nat × List Char) :=
  splitLoop (s.length + 1) s 0

/-- `split_entries(bib_text)`. -/
def splitEntries (s : List Char) : List (List Char) :=
  (splitEntriesWithStarts s).map Prod.snd

/-! ### `audit_all` (batch driver) -/

/-- The `except` branch of the driver loop: error header, snippet marker, and
the stripped chunk truncated to 200 characters with newlines blanked. -/
def parseErrorReport (rs e : List Char) : List (List Char) :=
  [lc "[?] Parse error: " ++ e,
   lc "  (Entry snippet)",
   lc "  " ++ (rs.take 200).map (fun c => if c = '\n' then ' ' else c) ++
     (if 200 < rs.length then lc "..." else [])]

/-- One iteration of the driver loop: skip blank chunks; on success append the
suggested record and its report block; on any error append the stripped chunk
unchanged plus the parse-error report. -/
def auditStep (raw : List Char) (today : PyDate) :
    List (List Char) × List (List Char) :=
  let rs := pyStrip raw
  if rs = [] then ([], [])
  else
    match parseEntry rs with
    | .error e => ([rs], parseErrorReport rs e)
    | .ok (t, k, F) =>
      match suggestEntry t k F today with
      | .error e => ([rs], parseErrorReport rs e)
      | .ok (sug, issues) =>
        let hdr := lc "[" ++ k ++ lc "] @" ++ t
        if issues.isEmpty then ([sug], [hdr ++ lc " — OK"])
        else ([sug], hdr :: issues.map (fun it => lc "  - " ++ it))

/-- The driver loop over all chunks, accumulating cleaned blocks and report
lines in order. -/
def auditChunks : List (List Char) → PyDate → List (List Char) × List (List Char)
  | [], _ => ([], [])
  | raw :: rest, d =>
    let r := auditStep raw d
    let rr := auditChunks rest d
    (r.1 ++ rr.1, r.2 ++ rr.2)

/-- `audit_all(bib_text)`: blocks joined by blank lines, report lines joined
by newlines, each with a trailing newline. -/
def auditAll (bib : List Char) (d : PyDate) : List Char × List Char :=
  let r := auditChunks (splitEntries bib) d
  (joinSep (lc "\n\n") r.1 ++ lc "\n", joinSep (lc "\n") r.2 ++ lc "\n")

/-- One full audit of a single record, the `render∘apply_rules∘parse`
composition of the specification's idempotence property. -/
def auditOnce (x : List Char) (d : PyDate) : Except (List Char) (List Char) :=
  match parseEntry x with
  | .error e => .error e
  | .ok (t, k, F) =>
    match suggestEntry t k F d with
    | .error e => .error e
    | .ok (sug, _) => .ok sug

/-- The claim-side notion "index `i` lies on a comment line": the line
containing `i` has `%` as its first non-whitespace character. -/
def onCommentLine (s : List Char) (i : Nat) : Bool :=
  let st := match rfindNl s i with | none => 0 | some p => p + 1
  let en := match findFrom s '\n' i with | none => s.length | some q => q
  (pyLstrip (slice s st en)).head? == some '%'

/-- A fixed date for the closed evaluations (no claim depends on the date). -/
def d0 : PyDate := ⟨2026, 10, 12⟩

end BibAudit

namespace BibAudit

/-- Specification-side predicate for the serializer claims: field `k` is
present in the mapping with a non-blank value. -/
def presentNonBlank (F : Dict) (k : List Char) : Bool :=
  match dictGet F k with
  | some v => !(pyStrip v).isEmpty
  | none => false

/-! ## Claim C1 (corrected)

Scenario C of the specification claims that for the input
`not a bibtex entry at all` the driver returns the text unchanged and reports
one parse error.  In fact the splitter finds no `@`, so `audit_all` returns
the cleaned text `"\n"` (the empty join plus trailing newline) and an empty
report: the text is dropped and no parse-error line is produced. -/

/-- Claim C1, counterexample: on `not a bibtex entry at all` the cleaned
output is not the original text, and the report is just `"\n"` — it contains
no `[?] Parse error` line. -/
theorem c1_counterexample :
    (auditAll (lc "not a bibtex entry at all") d0).1 ≠ lc "not a bibtex entry at all" ∧
    (auditAll (lc "not a bibtex entry at all") d0).2 = lc "\n" :=
  ⟨by decide, rfl⟩

/-- Claim C1, amended: for the input `not a bibtex entry at all` (no `@`),
`audit_all` returns the cleaned output `"\n"` and the report `"\n"`: the
splitter yields no chunks, the input text is dropped from the cleaned output,
and no parse-error line is produced. -/
theorem c1_amended :
    auditAll (lc "not a bibtex entry at all") d0 = (lc "\n", lc "\n") := rfl

/-! ## Claim C2 (corrected)

The idempotence property fails for some texts `parse_entry` accepts: when the
key region contains `={`, a `FIELD_RE` match spans the record header, and its
value captures surrounding layout that rendering changes. -/

/-- Claim C2, counterexample: for `@a{x={, y={z}}` (accepted by
`parse_entry`), auditing the audited output differs from the audited output —
`render∘apply_rules∘parse` is not idempotent on it. -/
theorem c2_counterexample :
    auditOnce (lc "@a\x7bx=\x7b, y=\x7bz\x7d\x7d") d0 =
      .ok (lc "@A\x7bx=\x7b,\n  x           = \x7b, y=\x7bz\x7d\n\x7d") ∧
    auditOnce (lc "@A\x7bx=\x7b,\n  x           = \x7b, y=\x7bz\x7d\n\x7d") d0 =
      .ok (lc "@A\x7bx=\x7b,\n  x           = \x7b,\n  x           = \x7b, y=\x7bz\x7d\n\x7d") ∧
    lc "@A\x7bx=\x7b,\n  x           = \x7b, y=\x7bz\x7d\n\x7d" ≠
      lc "@A\x7bx=\x7b,\n  x           = \x7b,\n  x           = \x7b, y=\x7bz\x7d\n\x7d" :=
  ⟨rfl, rfl, by decide⟩

/-- Claim C2, amended: re-auditing changes nothing further for well-formed
records (verified here on the specification's Scenario A record), but not for
every text `parse_entry` accepts — the counterexample shows a parse-accepted
record whose key region makes a field match span the header, breaking
idempotence. -/
theorem c2_amended :
    auditOnce (lc "@Article\x7bdoe2020, author = \x7bDoe, John\x7d, title = \x7bA Study Of Things\x7d, year = \x7b2020\x7d\x7d") d0 =
      .ok (lc "@Article\x7bdoe2020,\n  author      = \x7bDoe, J.\x7d,\n  title       = \x7bA study of things\x7d,\n  year        = \x7b2020\x7d,\n  journaltitle= \x7b<ADD JOURNAL TITLE>\x7d,\n  volume      = \x7b<ADD VOLUME>\x7d,\n  pages       = \x7b<ADD PAGES>\x7d\n\x7d") ∧
    auditOnce (lc "@Article\x7bdoe2020,\n  author      = \x7bDoe, J.\x7d,\n  title       = \x7bA study of things\x7d,\n  year        = \x7b2020\x7d,\n  journaltitle= \x7b<ADD JOURNAL TITLE>\x7d,\n  volume      = \x7b<ADD VOLUME>\x7d,\n  pages       = \x7b<ADD PAGES>\x7d\n\x7d") d0 =
      .ok (lc "@Article\x7bdoe2020,\n  author      = \x7bDoe, J.\x7d,\n  title       = \x7bA study of things\x7d,\n  year        = \x7b2020\x7d,\n  journaltitle= \x7b<ADD JOURNAL TITLE>\x7d,\n  volume      = \x7b<ADD VOLUME>\x7d,\n  pages       = \x7b<ADD PAGES>\x7d\n\x7d") :=
  ⟨rfl, rfl⟩

end BibAudit

namespace BibAudit

/-! ## Helper lemmas -/

theorem findChAux_mem {c : Char} :
    ∀ {l : List Char} {k : Nat}, findChAux c l = some k → c ∈ l := by
  intro l
  induction l with
  | nil => intro k h; simp [findChAux] at h
  | cons d t ih =>
    intro k h
    by_cases hd : d = c
    · simp [hd]
    · rw [findChAux, if_neg hd] at h
      cases hf : findChAux c t with
      | none => rw [hf] at h; simp at h
      | some m => exact List.mem_cons_of_mem _ (ih hf)

theorem findChAux_none {c : Char} {l : List Char} (h : c ∉ l) :
    findChAux c l = none := by
  cases hf : findChAux c l with
  | none => rfl
  | some k => exact absurd (findChAux_mem hf) h

theorem findChAux_drop {c : Char} :
    ∀ {l : List Char} {k : Nat}, findChAux c l = some k → ∃ t, l.drop k = c :: t := by
  intro l
  induction l with
  | nil => intro k h; simp [findChAux] at h
  | cons d t ih =>
    intro k h
    by_cases hd : d = c
    · rw [findChAux, if_pos hd] at h
      obtain rfl : (0 : Nat) = k := by simpa using h
      exact ⟨t, by simp [hd]⟩
    · rw [findChAux, if_neg hd] at h
      cases hf : findChAux c t with
      | none => rw [hf] at h; simp at h
      | some m =>
        rw [hf] at h
        obtain rfl : m + 1 = k := by simpa using h
        obtain ⟨r, hr⟩ := ih hf
        exact ⟨r, by simpa using hr⟩

theorem findFrom_spec {s : List Char} {c : Char} {i a : Nat}
    (h : findFrom s c i = some a) : i ≤ a ∧ ∃ t, s.drop a = c :: t := by
  rw [findFrom] at h
  cases hf : findChAux c (s.drop i) with
  | none => rw [hf] at h; simp at h
  | some k =>
    rw [hf] at h
    obtain rfl : k + i = a := by simpa using h
    obtain ⟨t, ht⟩ := findChAux_drop hf
    refine ⟨by omega, t, ?_⟩
    rw [List.drop_drop] at ht
    simpa [Nat.add_comm] using ht

theorem dropWhile_head_false {p : Char → Bool} {l t : List Char} {c : Char}
    (h : l.dropWhile p = c :: t) : p c = false := by
  have := List.head?_dropWhile_not p l
  rw [h] at this
  simpa using this

theorem pyStrip_head_false {s t : List Char} {c : Char}
    (h : pyStrip s = c :: t) : pySpace c = false := by
  have hpre : List.IsPrefix (pyStrip s) (s.dropWhile pySpace) := by
    have h2 := List.dropWhile_suffix (l := (s.dropWhile pySpace).reverse) pySpace
    have h3 : (s.dropWhile pySpace).reverse.dropWhile pySpace = (pyStrip s).reverse := by
      simp [pyStrip]
    rw [h3] at h2
    exact List.reverse_suffix.mp h2
  obtain ⟨r, hr⟩ := hpre
  rw [h] at hr
  exact dropWhile_head_false hr.symm

theorem pyStrip_ne_nil {c : Char} {t : List Char} (h : pySpace c = false) :
    pyStrip (c :: t) ≠ [] := by
  intro hnil
  rw [pyStrip] at hnil
  rw [List.reverse_eq_nil_iff, List.dropWhile_eq_nil_iff] at hnil
  have hc : c ∈ ((c :: t).dropWhile pySpace).reverse := by
    rw [List.dropWhile_cons, if_neg (by simp [h])]
    simp
  simpa [h] using hnil c hc

/-! ## Claim C3 (confirmed): no data loss -/

theorem splitLoop_chunk_head :
    ∀ (fuel : Nat) (s : List Char) (i : Nat) (p : Nat × List Char),
      p ∈ splitLoop fuel s i → ∃ t, p.2 = '@' :: t := by
  intro fuel
  induction fuel with
  | zero => intro s i p h; simp [splitLoop] at h
  | succ n ih =>
    intro s i p h
    rw [splitLoop] at h
    cases hf : findFrom s '@' i with
    | none => simp only [hf] at h; simp at h
    | some a =>
      simp only [hf] at h
      by_cases hc : commentSkip s a
      · rw [if_pos hc] at h
        exact ih s (a + 1) p h
      · rw [if_neg hc] at h
        obtain ⟨hia, t0, hdrop⟩ := findFrom_spec hf
        cases hb : findFrom s '\x7b' a with
        | none => simp only [hb] at h; simp at h
        | some brace =>
          simp only [hb] at h
          have hab : a ≤ brace := (findFrom_spec hb).1
          cases hsc : scanClose (s.drop (brace + 1)) 1 with
          | some consumed =>
            simp only [hsc] at h
            rcases List.mem_cons.mp h with hp | h2
            · obtain ⟨m, hm⟩ : ∃ m, brace + 1 + consumed - a = m + 1 :=
                ⟨brace + consumed - a, by omega⟩
              refine ⟨t0.take m, ?_⟩
              rw [hp]
              simp [slice, hdrop, hm]
            · exact ih s _ p h2
          | none =>
            simp only [hsc] at h
            have hp : p = (a, s.drop a) := by simpa using h
            exact ⟨t0, by rw [hp]; exact hdrop⟩

theorem auditStep_len_one {raw : List Char} (d : PyDate) (h : pyStrip raw ≠ []) :
    ((auditStep raw d).1).length = 1 := by
  rw [auditStep]
  simp only [if_neg h]
  cases hp : parseEntry (pyStrip raw) with
  | error e => simp only [hp]; simp
  | ok v =>
    obtain ⟨t, k, F⟩ := v
    simp only [hp]
    cases hs : suggestEntry t k F d with
    | error e => simp only [hs]; simp
    | ok w =>
      obtain ⟨sug, issues⟩ := w
      simp only [hs]
      by_cases hi : issues = [] <;> simp [List.isEmpty_iff, hi]

theorem auditChunks_len :
    ∀ (entries : List (List Char)) (d : PyDate),
      (∀ c ∈ entries, ∃ t, c = '@' :: t) →
      ((auditChunks entries d).1).length = entries.length := by
  intro entries
  induction entries with
  | nil => intro d _; simp [auditChunks]
  | cons raw rest ih =>
    intro d h
    obtain ⟨t, ht⟩ := h raw (by simp)
    have hne : pyStrip raw ≠ [] := by
      rw [ht]; exact pyStrip_ne_nil (by decide)
    rw [auditChunks]
    simp only [List.length_append]
    rw [auditStep_len_one d hne, ih d (fun c hc => h c (by simp [hc]))]
    simp [Nat.add_comm]

/-- Claim C3: for every input document (and any current date), the number of
chunks returned by `split_entries` equals the number of blocks the batch
driver places in the cleaned output — every chunk contributes exactly one
block, whether it parses or not, so no record is silently dropped. -/
theorem c3_no_data_loss (doc : List Char) (d : PyDate) :
    ((auditChunks (splitEntries doc) d).1).length = (splitEntries doc).length := by
  apply auditChunks_len
  intro c hc
  rw [splitEntries] at hc
  obtain ⟨p, hp, rfl⟩ := List.mem_map.mp hc
  exact splitLoop_chunk_head _ _ _ p hp

/-! ## Claim C5 (confirmed): totality of the rule engine -/

theorem dictGet_of_contains : ∀ {F : Dict} {k : List Char},
    dictContains F k = true → ∃ v, dictGet F k = some v := by
  intro F
  induction F with
  | nil => intro k h; simp [dictContains] at h
  | cons kv F ih =>
    intro k h
    by_cases he : kv.1 = k
    · exact ⟨kv.2, by rw [dictGet, if_pos he]⟩
    · rw [dictContains, if_neg he] at h
      obtain ⟨v, hv⟩ := ih h
      exact ⟨v, by rw [dictGet, if_neg he]; exact hv⟩

theorem pyGetItem_ok {F : Dict} {k : List Char} (h : dictContains F k = true) :
    ∃ v, pyGetItem F k = .ok v := by
  obtain ⟨v, hv⟩ := dictGet_of_contains h
  exact ⟨v, by rw [pyGetItem, hv]⟩

theorem pySplitWs_ne_nil {c : Char} {t : List Char} (h : pySpace c = false) :
    pySplitWs (c :: t) ≠ [] := by
  rw [pySplitWs]
  simp only [List.length_cons, pySplitWsLoop, List.dropWhile_cons, h]
  simp

theorem pyLast_ok : ∀ {l : List (List Char)}, l ≠ [] → ∃ x, pyLast l = .ok x := by
  intro l
  induction l with
  | nil => intro h; exact absurd rfl h
  | cons x t ih =>
    intro _
    cases t with
    | nil => exact ⟨x, rfl⟩
    | cons y u =>
      obtain ⟨z, hz⟩ := ih (by simp)
      exact ⟨z, hz⟩

theorem enforceOne_ok (a0 : List Char) : ∃ r, enforceOne a0 = .ok r := by
  simp only [enforceOne]
  split
  · exact ⟨_, rfl⟩
  · split
    · exact ⟨_, rfl⟩
    · split
      · exact ⟨_, rfl⟩
      · rename_i h1 _ _
        have hsp : pySplitWs (pyStrip a0) ≠ [] := by
          cases hs : pyStrip a0 with
          | nil => exact absurd hs h1
          | cons c t => exact pySplitWs_ne_nil (pyStrip_head_false hs)
        obtain ⟨x, hx⟩ := pyLast_ok hsp
        rw [hx]
        exact ⟨_, rfl⟩

theorem enforceList_ok : ∀ l : List (List Char), ∃ r, enforceList l = .ok r := by
  intro l
  induction l with
  | nil => exact ⟨[], rfl⟩
  | cons a rest ih =>
    obtain ⟨p, hp⟩ := enforceOne_ok a
    obtain ⟨ps, hps⟩ := ih
    refine ⟨p ++ ps, ?_⟩
    rw [enforceList]
    simp only [hp, hps]

theorem enforceInitials_ok (author : List Char) :
    ∃ r, enforceInitials author = .ok r := by
  obtain ⟨ps, hps⟩ := enforceList_ok (pySplitAnd author)
  refine ⟨joinSep (lc " and ") ps, ?_⟩
  rw [enforceInitials]
  simp only [hps]

theorem ruleAuthor_ok (F : Dict) (issues : List (List Char)) :
    ∃ r, ruleAuthor F issues = .ok r := by
  rw [ruleAuthor]
  split
  · rename_i hcond
    obtain ⟨a, ha⟩ := pyGetItem_ok hcond.2
    simp only [ha]
    split
    · obtain ⟨a2, ha2⟩ := enforceInitials_ok a
      simp only [ha2]
      exact ⟨_, rfl⟩
    · exact ⟨_, rfl⟩
  · exact ⟨_, rfl⟩

theorem onlineNote_ok (F : Dict) (issues : List (List Char)) :
    ∃ r, onlineNote F issues = .ok r := by
  rw [onlineNote]
  split
  · rename_i hcond
    obtain ⟨v, hv⟩ := pyGetItem_ok hcond
    simp only [hv]
    split
    · exact ⟨_, rfl⟩
    · exact ⟨_, rfl⟩
  · exact ⟨_, rfl⟩

theorem onlineUrl_ok (F : Dict) (issues : List (List Char)) :
    ∃ r, onlineUrl F issues = .ok r := by
  rw [onlineUrl]
  split
  · rename_i hcond
    obtain ⟨v, hv⟩ := pyGetItem_ok hcond
    simp only [hv]
    split
    · exact ⟨_, rfl⟩
    · exact ⟨_, rfl⟩
  · exact ⟨_, rfl⟩

theorem ruleOnline_ok (etype : List Char) (d : PyDate) (F : Dict)
    (issues : List (List Char)) : ∃ r, ruleOnline etype d F issues = .ok r := by
  rw [ruleOnline]
  split
  · obtain ⟨st1, h1⟩ := onlineNote_ok F issues
    simp only [h1]
    exact onlineUrl_ok _ _
  · exact ⟨_, rfl⟩

theorem ruleEdition_ok (F : Dict) (issues : List (List Char)) :
    ∃ r, ruleEdition F issues = .ok r := by
  rw [ruleEdition]
  split
  · rename_i hcond
    obtain ⟨v, hv⟩ := pyGetItem_ok hcond
    simp only [hv]
    split
    · exact ⟨_, rfl⟩
    · exact ⟨_, rfl⟩
  · exact ⟨_, rfl⟩

/-- Totality of the rule engine: for every record type, key, field mapping
and date, `suggest_entry` always returns a suggested record and an issue
list, never an error.  The guarded accesses (`F[...]` after membership tests)
and `parts[-1]` (on the split of a nonempty stripped author) are proved
unreachable. -/
theorem suggestEntry_total (etype key : List Char) (F : Dict) (today : PyDate) :
    ∃ suggested issues, suggestEntry etype key F today = .ok (suggested, issues) := by
  simp only [suggestEntry]
  obtain ⟨st2, h2⟩ := ruleAuthor_ok (ruleAbstract F []).1 (ruleAbstract F []).2
  simp only [h2]
  obtain ⟨st4, h4⟩ := ruleOnline_ok etype today (ruleSentence etype st2.1 st2.2).1
    (ruleSentence etype st2.1 st2.2).2
  simp only [h4]
  split
  · rename_i e heq
    obtain ⟨r, hr⟩ := ruleEdition_ok _ _
    rw [hr] at heq
    simp at heq
  · exact ⟨_, _, rfl⟩

theorem dictContains_dictSet_ne : ∀ {F : Dict} {k v k2 : List Char}, k ≠ k2 →
    dictContains (dictSet F k v) k2 = dictContains F k2 := by
  intro F
  induction F with
  | nil =>
    intro k v k2 h
    simp [dictSet, dictContains, h]
  | cons kv F ih =>
    intro k v k2 h
    obtain ⟨k1, v1⟩ := kv
    simp only [dictSet]
    by_cases he : k1 = k
    · rw [if_pos he]
      simp only [dictContains]
      rw [if_neg h, if_neg (by rw [he]; exact h)]
    · rw [if_neg he]
      simp only [dictContains]
      by_cases he2 : k1 = k2
      · rw [if_pos he2, if_pos he2]
      · rw [if_neg he2, if_neg he2, ih h]

/-- Claim C5, counterexample: the claim "every field it cannot fix is left
with an explicit placeholder value and a corresponding Issue is appended"
fails for `url`: on an online record with no `url`, the rule engine appends
the `Missing url for online source.` Issue but synthesizes no placeholder —
re-parsing the suggested record shows it holds no `url` field at all. -/
theorem c5_counterexample :
    suggestEntry (lc "online") (lc "k") [] d0 =
      .ok (lc "@Online\x7bk,\n  note        = \x7b[Online]\x7d,\n  urldate     = \x7b2026-10-12\x7d,\n  addendum    = \x7b(Accessed: 12 October 2026)\x7d\n\x7d",
           [lc "Missing note = \x7b[Online]\x7d for online source.",
            lc "Missing urldate (ISO YYYY-MM-DD).",
            lc "Missing addendum with Accessed: Day Month Year.",
            lc "Missing url for online source."]) ∧
    dictContains (parseFields (lc "@Online\x7bk,\n  note        = \x7b[Online]\x7d,\n  urldate     = \x7b2026-10-12\x7d,\n  addendum    = \x7b(Accessed: 12 October 2026)\x7d\n\x7d"))
      (lc "url") = false :=
  ⟨rfl, rfl⟩

/-- Claim C5, amended: the rule engine is total — `suggest_entry` never
raises, for every type, key, field mapping and date.  Unresolvable omissions
degrade to an explicit `<ADD …>` placeholder value plus an Issue for the
article/book/thesis required-field rules, but NOT for `url`: a missing `url`
on an online/electronic source appends only the Issue and leaves the field
mapping unchanged — no placeholder is synthesized there. -/
theorem c5_amended :
    (∀ (etype key : List Char) (F : Dict) (today : PyDate),
        ∃ suggested issues, suggestEntry etype key F today = .ok (suggested, issues)) ∧
    (∀ (F : Dict) (issues : List (List Char)), dictContains F (lc "url") = false →
        onlineUrl F issues = .ok (F, issues ++ [lc "Missing url for online source."])) ∧
    (∀ (noun req : List Char) (st : Dict × List (List Char)),
        dictContains st.1 req = false →
        ruleReq noun req st =
          (dictSet st.1 req (lc "<ADD " ++ upperStr req ++ lc ">"),
           st.2 ++ [lc "Missing " ++ req ++ lc " for " ++ noun ++ lc "."])) ∧
    (∀ (F : Dict) (issues : List (List Char)),
        dictContains F (lc "journaltitle") = false →
        dictContains F (lc "pages") = false →
        dictContains F (lc "volume") = false →
        dictContains F (lc "number") = false →
        ruleArticle (lc "article") F issues =
          (dictSet (dictSet (dictSet F (lc "journaltitle") (lc "<ADD JOURNAL TITLE>"))
              (lc "pages") (lc "<ADD PAGES>")) (lc "volume") (lc "<ADD VOLUME>"),
           issues ++ [lc "Missing journaltitle for article.", lc "Missing pages for article.",
             lc "Missing volume/number for article."])) := by
  refine ⟨suggestEntry_total, ?_, ?_, ?_⟩
  · intro F issues h
    rw [onlineUrl, if_neg (by simp [h])]
  · intro noun req st h
    rw [ruleReq, if_neg (by simp [h])]
  · intro F issues h1 h2 h3 h4
    have e1 : dictContains (dictSet F (lc "journaltitle") (lc "<ADD JOURNAL TITLE>"))
        (lc "pages") = false := by
      rw [dictContains_dictSet_ne (by decide), h2]
    have e2 : dictContains (dictSet (dictSet F (lc "journaltitle") (lc "<ADD JOURNAL TITLE>"))
        (lc "pages") (lc "<ADD PAGES>")) (lc "volume") = false := by
      rw [dictContains_dictSet_ne (by decide), dictContains_dictSet_ne (by decide), h3]
    have e3 : dictContains (dictSet (dictSet F (lc "journaltitle") (lc "<ADD JOURNAL TITLE>"))
        (lc "pages") (lc "<ADD PAGES>")) (lc "number") = false := by
      rw [dictContains_dictSet_ne (by decide), dictContains_dictSet_ne (by decide), h4]
    rw [ruleArticle]
    simp [h1, e1, e2, e3]

/-- Witness for the amended C5 theorem: the url rule on an empty mapping
appends the Issue and leaves the mapping unchanged. -/
theorem c5_amended_witness :
    onlineUrl [] [] =
      .ok (([] : Dict), ([] : List (List Char)) ++ [lc "Missing url for online source."]) :=
  c5_amended.2.1 [] [] (by decide)

/-! ## Claim C6 (corrected): serializer emission order -/

theorem rebuildPass1_spec : ∀ (ks : List (List Char)) (F : Dict),
    rebuildPass1 ks F =
      ((ks.filter (presentNonBlank F)).map (fun k => (k, (dictGet F k).getD [])),
       ks.filter (presentNonBlank F)) := by
  intro ks F
  induction ks with
  | nil => rfl
  | cons k ks ih =>
    rw [rebuildPass1]
    cases hg : dictGet F k with
    | none =>
      simp only [hg, ih]
      simp [List.filter_cons, presentNonBlank, hg]
    | some v =>
      simp only [hg, ih]
      by_cases hv : pyStrip v = []
      · rw [if_pos hv]
        simp [List.filter_cons, presentNonBlank, hg, List.isEmpty_iff, hv]
      · rw [if_neg hv]
        simp [List.filter_cons, presentNonBlank, hg, List.isEmpty_iff, hv]

/-- Claim C6, counterexample: a blank-valued field does appear in the
serializer's output — the preferred-order pass skips blank `author`, but the
trailing pass (which has no blank check) then emits it, so the rendered record
contains the line `author      = {}`. -/
theorem c6_counterexample :
    rebuildEntry (lc "misc") (lc "k") [(lc "author", lc "")] =
      lc "@Misc\x7bk,\n  author      = \x7b\x7d\n\x7d" ∧
    rebuildFields [(lc "author", lc "")] = [(lc "author", lc "")] :=
  ⟨rfl, rfl⟩

/-- Claim C6, amended: the serializer emits the preferred-list fields that are
present and non-blank first, in the fixed preferred order; every remaining
mapping entry — a field not in the preferred list (blank or not), or a
preferred-list field with a blank value — is then emitted afterward in mapping
iteration order.  Blank-valued fields therefore do appear in the output, in
the trailing section. -/
theorem c6_amended (F : Dict) :
    rebuildFields F =
      (orderHint.filter (presentNonBlank F)).map (fun k => (k, (dictGet F k).getD []))
      ++ F.filter (fun kv => !(orderHint.contains kv.1 && presentNonBlank F kv.1)) := by
  rw [rebuildFields, rebuildPass1_spec]
  congr 1
  apply List.filter_congr
  intro kv _
  congr 1
  rw [Bool.eq_iff_iff]
  simp [List.contains, List.elem_iff, List.mem_filter]

/-! ## Claim C7 (corrected): comment-line skipping -/

theorem splitLoop_no_skip :
    ∀ (fuel : Nat) (s : List Char) (i : Nat) (p : Nat × List Char),
      p ∈ splitLoop fuel s i → commentSkip s p.1 = false := by
  intro fuel
  induction fuel with
  | zero => intro s i p h; simp [splitLoop] at h
  | succ n ih =>
    intro s i p h
    rw [splitLoop] at h
    cases hf : findFrom s '@' i with
    | none => simp only [hf] at h; simp at h
    | some a =>
      simp only [hf] at h
      by_cases hc : commentSkip s a
      · rw [if_pos hc] at h
        exact ih s _ p h
      · rw [if_neg hc] at h
        cases hb : findFrom s '\x7b' a with
        | none => simp only [hb] at h; simp at h
        | some brace =>
          simp only [hb] at h
          cases hsc : scanClose (s.drop (brace + 1)) 1 with
          | some consumed =>
            simp only [hsc] at h
            rcases List.mem_cons.mp h with hp | h2
            · rw [hp]; simpa using hc
            · exact ih s _ p h2
          | none =>
            simp only [hsc] at h
            have hp : p = (a, s.drop a) := by simpa using h
            rw [hp]; simpa using hc

/-- Claim C7, counterexample: for the input `% @x{y,}` the sole `@` (index 2)
lies on a comment line — the line's first non-whitespace character is `%` —
yet the splitter starts a chunk exactly there: the code only performs its
comment test when a newline precedes the `@`, so a comment on the very first
line is not skipped. -/
theorem c7_counterexample :
    onCommentLine (lc "% @x\x7by,\x7d") 2 = true ∧
    splitEntriesWithStarts (lc "% @x\x7by,\x7d") = [(2, lc "@x\x7by,\x7d")] :=
  ⟨rfl, rfl⟩

/-- Claim C7, amended: the splitter never starts a chunk at an `@` for which
the code's comment test fires — an `@` at positive index whose line prefix,
after a preceding newline, left-strips to something starting with `%`; an `@`
on a comment line that is the first line of the input (no preceding newline)
is still taken.  In particular, two records separated by the comment line
`% skip this` yield exactly two chunks, the comment being ignored. -/
theorem c7_amended :
    (∀ (s : List Char) (p : Nat × List Char), p ∈ splitEntriesWithStarts s →
        commentSkip s p.1 = false) ∧
    splitEntries (lc "@a\x7bb,\x7d\n% skip this\n@c\x7bd,\x7d") =
      [lc "@a\x7bb,\x7d", lc "@c\x7bd,\x7d"] :=
  ⟨fun s p h => splitLoop_no_skip (s.length + 1) s 0 p h, rfl⟩

/-- Witness for C7's amended theorem: the first chunk of `@a{b,}` starts at
index 0, and the comment test indeed does not fire there. -/
theorem c7_amended_witness : commentSkip (lc "@a\x7bb,\x7d") ((0, lc "@a\x7bb,\x7d") : Nat × List Char).1 = false :=
  c7_amended.1 (lc "@a\x7bb,\x7d") (0, lc "@a\x7bb,\x7d") (by decide)

/-! ## Claim C8 (confirmed): unbalanced tail chunk -/

/-- Claim C8: whenever the splitter's loop has selected an `@` at index `a`
(not comment-skipped), found an opening brace, and the depth scan never
returns to zero before the input ends, the loop emits the entire remaining
tail `s[a:]` as one final chunk and stops — no trailing data after the
selected `@` is lost. -/
theorem c8_unbalanced_tail (fuel : Nat) (s : List Char) (i a brace : Nat)
    (h1 : findFrom s '@' i = some a) (h2 : commentSkip s a = false)
    (h3 : findFrom s '\x7b' a = some brace)
    (h4 : scanClose (s.drop (brace + 1)) 1 = none) :
    splitLoop (fuel + 1) s i = [(a, s.drop a)] := by
  rw [splitLoop]
  simp [h1, h2, h3, h4]

/-- Witness for C8 on the malformed input `@x{`, whose brace never closes:
the loop emits `@x{` itself as the single tail chunk. -/
theorem c8_unbalanced_tail_witness :
    splitLoop 1 (lc "@x\x7b") 0 = [(0, (lc "@x\x7b").drop 0)] :=
  c8_unbalanced_tail 0 (lc "@x\x7b") 0 0 2 (by decide) (by decide) (by decide)
    (by decide)

/-! ## Claim C9 (corrected): type and key after a successful parse -/

theorem headMatchAt_type_ne {s w r : List Char} (h : headMatchAt s = some (w, r)) :
    w ≠ [] := by
  unfold headMatchAt at h
  split at h
  · rename_i t
    simp only at h
    split at h
    · simp at h
    · rename_i hw
      split at h
      · split at h
        · simp at h
        · split at h
          · obtain ⟨h1, _⟩ : t.takeWhile isWordChar = w ∧ _ := by
              simpa using h
            rw [← h1]
            simpa [List.isEmpty_iff] using hw
          · split at h
            · obtain ⟨h1, _⟩ : t.takeWhile isWordChar = w ∧ _ := by
                simpa using h
              rw [← h1]
              simpa [List.isEmpty_iff] using hw
            · simp at h
      · simp at h
  · simp at h

theorem headSearch_type_ne : ∀ {x w r : List Char},
    headSearch x = some (w, r) → w ≠ [] := by
  intro x
  induction x with
  | nil => intro w r h; simp [headSearch] at h
  | cons c t ih =>
    intro w r h
    rw [headSearch] at h
    cases hm : headMatchAt (c :: t) with
    | none => simp only [hm] at h; exact ih h
    | some p =>
      simp only [hm] at h
      obtain rfl : p = (w, r) := by simpa using h
      exact headMatchAt_type_ne hm

/-- Claim C9, counterexample: `parse_entry` succeeds on `@a{ ,}` — the regex
backtracks one space into the key group — and returns the empty key: the key
is not always non-empty after trimming. -/
theorem c9_counterexample :
    parseEntry (lc "@a\x7b ,\x7d") = .ok (lc "a", [], []) := rfl

/-- Claim C9, amended: on every text where `parse_entry` succeeds, the
returned record type is a non-empty string (it is a lowercased `\w+` run of
at least one character); the key, however, may be empty after trimming, when
only whitespace stands between the opening brace and the first comma. -/
theorem c9_amended (x t k : List Char) (F : Dict)
    (h : parseEntry x = .ok (t, k, F)) : t ≠ [] := by
  rw [parseEntry] at h
  cases hs : headSearch x with
  | none => simp only [hs] at h; simp at h
  | some p =>
    obtain ⟨w, rawKey⟩ := p
    simp only [hs] at h
    obtain ⟨h1, -, -⟩ : lowerStr w = t ∧ pyStrip rawKey = k ∧ parseFields x = F := by
      simpa using h
    rw [← h1]
    simpa [lowerStr, List.map_eq_nil_iff] using headSearch_type_ne hs

/-- Witness for C9's amended theorem at the record `@a{b,}`. -/
theorem c9_amended_witness : lc "a" ≠ ([] : List Char) :=
  c9_amended (lc "@a\x7bb,\x7d") (lc "a") (lc "b") [] rfl

/-! ## Claim C10 (confirmed): a comma-free record never parses -/

theorem headMatchAt_no_comma {s : List Char} (h : (',' : Char) ∉ s) :
    headMatchAt s = none := by
  unfold headMatchAt
  split
  · rename_i t
    simp only
    split
    · rfl
    · split
      · rename_i heq
        have hsub : (',' : Char) ∉ _ := fun hmem => h (by
          have h2 : (',' : Char) ∈ (t.drop (t.takeWhile isWordChar).length).dropWhile pySpace := by
            rw [heq]; exact List.mem_cons_of_mem _ hmem
          have h3 : (',' : Char) ∈ t.drop (t.takeWhile isWordChar).length :=
            (List.dropWhile_sublist _).mem h2
          exact List.mem_cons_of_mem _ ((List.drop_sublist _ _).mem h3))
        rw [findChAux_none hsub]
      · rfl
  · rfl

theorem headSearch_no_comma : ∀ {x : List Char}, (',' : Char) ∉ x →
    headSearch x = none := by
  intro x
  induction x with
  | nil => intro _; rfl
  | cons c t ih =>
    intro h
    rw [headSearch, headMatchAt_no_comma h, ih (fun hm => h (List.mem_cons_of_mem _ hm))]

/-- Claim C10: a record text containing no comma anywhere — such as the
brace-balanced, zero-field `@Misc{mykey}` — makes `parse_entry` fail, because
the header pattern requires a comma after the key; the batch driver then
passes such a record through verbatim with a `[?] Parse error` report entry
instead of normalizing it. -/
theorem c10_no_comma :
    (∀ x : List Char, (',' : Char) ∉ x → parseEntry x = .error parseErrMsg) ∧
    auditAll (lc "@Misc\x7bmykey\x7d") d0 =
      (lc "@Misc\x7bmykey\x7d\n",
       lc "[?] Parse error: Could not find @type\x7bkey, ...\x7d in entry.\n  (Entry snippet)\n  @Misc\x7bmykey\x7d\n") :=
  ⟨fun x hx => by rw [parseEntry, headSearch_no_comma hx], rfl⟩

/-- Witness for C10's universal part at the concrete comma-free record
`@Misc{mykey}`. -/
theorem c10_no_comma_witness :
    parseEntry (lc "@Misc\x7bmykey\x7d") = .error parseErrMsg :=
  c10_no_comma.1 (lc "@Misc\x7bmykey\x7d") (by decide)

/-! ## Claim C4 (corrected): parse-failure pass-through -/

/-- Claim C4, counterexample: on the input `@x{ ` the splitter's only chunk is
`@x{ ` (with its trailing space), but the failed chunk's contribution to the
cleaned output is the stripped `@x{` — not byte-identical to the splitter's
chunk. -/
theorem c4_counterexample :
    splitEntries (lc "@x\x7b ") = [lc "@x\x7b "] ∧
    (auditChunks (splitEntries (lc "@x\x7b ")) d0).1 = [lc "@x\x7b"] ∧
    (lc "@x\x7b" : List Char) ≠ lc "@x\x7b " :=
  ⟨rfl, rfl, by decide⟩

/-- Claim C4, amended: for every chunk on which parsing fails, the driver
records a parse-error report entry whose snippet truncates the stripped chunk
to at most 200 characters (newlines blanked, an ellipsis appended beyond
200), and passes the *whitespace-stripped* chunk text — not the original
chunk byte-for-byte — through into the cleaned output; stripping only matters
for an unbalanced tail chunk, since balanced chunks start at `@` and end at
`}`. -/
theorem c4_amended (raw : List Char) (d : PyDate) (e : List Char)
    (h1 : pyStrip raw ≠ []) (h2 : parseEntry (pyStrip raw) = .error e) :
    auditStep raw d =
      ([pyStrip raw],
       [lc "[?] Parse error: " ++ e, lc "  (Entry snippet)",
        lc "  " ++ ((pyStrip raw).take 200).map (fun c => if c = '\n' then ' ' else c) ++
          (if 200 < (pyStrip raw).length then lc "..." else [])]) := by
  rw [auditStep]
  simp only [if_neg h1, h2, parseErrorReport]

/-- Witness for C4's amended theorem on the unbalanced chunk `@x{ `. -/
theorem c4_amended_witness :
    auditStep (lc "@x\x7b ") d0 =
      ([pyStrip (lc "@x\x7b ")],
       [lc "[?] Parse error: " ++ parseErrMsg, lc "  (Entry snippet)",
        lc "  " ++ ((pyStrip (lc "@x\x7b ")).take 200).map (fun c => if c = '\n' then ' ' else c) ++
          (if 200 < (pyStrip (lc "@x\x7b ")).length then lc "..." else [])]) :=
  c4_amended (lc "@x\x7b ") d0 parseErrMsg (by decide) rfl

end BibAudit
